import Mathlib

/-
Formal model of the `train_shunting` repository: a safety-interlock
orchestrator consisting of a YOLO detector process (broadcast hub,
detection loop) and an orchestrator process (SSE event client with
exponential backoff, cooldown-gated safety sequencer, process
supervision, mDNS discovery).

Times and durations are modelled as rationals (Python floats used as
exact values); `time.sleep` advances model time, `time.time()` reads it.
Each Python function is embedded as an executable Lean definition named
after its source symbol.
-/

namespace TrainShunting

/-- A detection payload dict as produced by `backend/yolo_server.py`
(`{"label": ..., "confidence": ..., "bbox": ..., "timestamp": ...}`) and
consumed by `orchestrator/main.py`.  `label` is `Option` because
`payload.get("label")` may be absent on the orchestrator side. -/
structure Payload where
  label : Option String
  confidence : ℚ
  bbox : List ℚ
  timestamp : ℚ
  deriving DecidableEq, Repr

/-- An SSE event dict `{"type": ..., "payload": ...}` as decoded by
`OrchestratorRuntime._handle_event`;  `event.get("payload")` may be
absent or falsy, hence `Option`. -/
structure Event where
  type : String
  payload : Option Payload
  deriving DecidableEq, Repr

/-- The configuration values of `backend/detection_config.py` that the
orchestrator's event handling reads (each one env-overridable). -/
structure DetectionConfig where
  watch_classes : List String
  stop_to_reverse_delay : ℚ
  reverse_duration : ℚ
  forward_resume_delay : ℚ
  resume_with_forward : Bool
  max_event_log_size : Nat
  deriving Repr

/-- The default values from `backend/detection_config.py`
(`WATCH_CLASSES` restricted here to the ones a scenario fixes). -/
def defaultConfig : DetectionConfig :=
  { watch_classes := ["person", "bottle"]
    stop_to_reverse_delay := 1
    reverse_duration := 3/2
    forward_resume_delay := 1
    resume_with_forward := true
    max_event_log_size := 100 }

/-- The serial commands sent by `serial_cmds/{stop,reverse,forward}.py`. -/
inductive SerialCommand where
  | stopCmd
  | reverseCmd (duration : ℚ)
  | forwardCmd
  deriving DecidableEq, Repr

/-- A serial command together with the model time at which
`OrchestratorRuntime._execute_safety_sequence` sends it. -/
structure TimedCommand where
  time : ℚ
  cmd : SerialCommand
  deriving DecidableEq, Repr

/-- The mutable fields of `OrchestratorRuntime` that `_handle_event`
touches: the bounded `event_log` deque (newest first), `last_detection`,
and `_serial_cooldown`. -/
structure RuntimeState where
  event_log : List Payload
  last_detection : Option Payload
  serial_cooldown : ℚ
  deriving DecidableEq, Repr

/-- `OrchestratorRuntime.__init__`: empty log, no detection,
`_serial_cooldown = 0.0`. -/
def initialRuntimeState : RuntimeState :=
  { event_log := [], last_detection := none, serial_cooldown := 0 }

/-- `collections.deque(maxlen=n).appendleft x`: prepend `x`, evicting
from the right end once the deque holds `n` items (a `maxlen=0` deque
stays empty). -/
def dequeAppendleft (maxlen : Nat) (x : α) (log : List α) : List α :=
  if maxlen = 0 then [] else x :: log.take (maxlen - 1)

/-- Python truthiness of `payload.get("label")` read as a string:
a missing label behaves like `""`, and `if not label: return` drops
exactly the events whose label reads as `""`. -/
def labelRead (l : Option String) : String :=
  l.getD ""

/-- `OrchestratorRuntime._execute_safety_sequence`.  `now` is the
`time.time()` captured on entry and `cooldown` the current
`_serial_cooldown`.  Returns the new `_serial_cooldown` and the timed
serial commands issued.  Inside the lock the code either skips (inside
the cooldown window) or sends STOP, sleeps `STOP_TO_REVERSE_DELAY`,
sends REVERSE with `REVERSE_DURATION`, records `_serial_cooldown` from a
fresh `time.time()` (so at REVERSE-send time), then optionally sleeps
`FORWARD_RESUME_DELAY` and sends FORWARD. -/
def execute_safety_sequence (cfg : DetectionConfig) (now cooldown : ℚ) :
    ℚ × List TimedCommand :=
  if now - cooldown < cfg.reverse_duration then
    (cooldown, [])
  else
    let tRev := now + cfg.stop_to_reverse_delay
    let base := [⟨now, SerialCommand.stopCmd⟩,
                 ⟨tRev, SerialCommand.reverseCmd cfg.reverse_duration⟩]
    if cfg.resume_with_forward then
      (tRev, base ++ [⟨tRev + cfg.forward_resume_delay, SerialCommand.forwardCmd⟩])
    else
      (tRev, base)

/-- `OrchestratorRuntime._handle_event`, handled at model time `now`:
non-`"detection"` events and events without a truthy label are ignored;
otherwise the payload becomes `last_detection` and is prepended to the
bounded `event_log`, and the safety sequence runs only when the label is
in `WATCH_CLASSES`. -/
def handle_event (cfg : DetectionConfig) (now : ℚ) (st : RuntimeState)
    (ev : Event) : RuntimeState × List TimedCommand :=
  if ev.type = "detection" then
    let payload := ev.payload.getD ⟨none, 0, [], 0⟩
    let l := labelRead payload.label
    if l = "" then (st, [])
    else
      let st1 : RuntimeState :=
        { st with
          last_detection := some payload
          event_log := dequeAppendleft cfg.max_event_log_size payload st.event_log }
      if l ∈ cfg.watch_classes then
        let r := execute_safety_sequence cfg now st.serial_cooldown
        ({ st1 with serial_cooldown := r.1 }, r.2)
      else (st1, [])
  else (st, [])

/-- Handle a chronological list of `(handling time, event)` pairs,
collecting every serial command issued. -/
def runEvents (cfg : DetectionConfig) :
    RuntimeState → List (ℚ × Event) → RuntimeState × List TimedCommand
  | st, [] => (st, [])
  | st, (t, ev) :: rest =>
    let r := handle_event cfg t st ev
    let r' := runEvents cfg r.1 rest
    (r'.1, r.2 ++ r'.2)

/-- Number of STOP commands in a command list; each executed safety
sequence sends exactly one STOP, so this counts executed sequences. -/
def countStops : List TimedCommand → Nat
  | [] => 0
  | c :: rest => (if c.cmd = SerialCommand.stopCmd then 1 else 0) + countStops rest

/-- An event qualifies for the safety sequence when it is a
`"detection"` event whose payload carries a truthy label that is in the
watch set. -/
def Qualifying (cfg : DetectionConfig) (ev : Event) : Prop :=
  ev.type = "detection" ∧
  ∃ p, ev.payload = some p ∧ labelRead p.label ≠ "" ∧
    labelRead p.label ∈ cfg.watch_classes

/-- The command list sent by a safety sequence entered at time `now`. -/
def triggeredCommands (cfg : DetectionConfig) (now : ℚ) : List TimedCommand :=
  [⟨now, SerialCommand.stopCmd⟩,
   ⟨now + cfg.stop_to_reverse_delay, SerialCommand.reverseCmd cfg.reverse_duration⟩]
  ++ (if cfg.resume_with_forward then
        [⟨now + cfg.stop_to_reverse_delay + cfg.forward_resume_delay,
          SerialCommand.forwardCmd⟩]
      else [])

lemma execute_safety_sequence_skipped (cfg : DetectionConfig) (now c : ℚ)
    (h : now - c < cfg.reverse_duration) :
    execute_safety_sequence cfg now c = (c, []) := by
  simp [execute_safety_sequence, h]

lemma execute_safety_sequence_triggered (cfg : DetectionConfig) (now c : ℚ)
    (h : ¬ now - c < cfg.reverse_duration) :
    execute_safety_sequence cfg now c =
      (now + cfg.stop_to_reverse_delay, triggeredCommands cfg now) := by
  by_cases hf : cfg.resume_with_forward <;>
    simp [execute_safety_sequence, h, hf, triggeredCommands]

lemma countStops_triggeredCommands (cfg : DetectionConfig) (now : ℚ) :
    countStops (triggeredCommands cfg now) = 1 := by
  by_cases hf : cfg.resume_with_forward <;>
    simp [triggeredCommands, countStops, hf]

/-- Characterisation of `handle_event` on a detection event whose payload
carries a truthy label. -/
lemma handle_event_labeled (cfg : DetectionConfig) (now : ℚ)
    (st : RuntimeState) (p : Payload) (hl : labelRead p.label ≠ "") :
    handle_event cfg now st ⟨"detection", some p⟩ =
      if labelRead p.label ∈ cfg.watch_classes then
        (⟨dequeAppendleft cfg.max_event_log_size p st.event_log, some p,
          (execute_safety_sequence cfg now st.serial_cooldown).1⟩,
         (execute_safety_sequence cfg now st.serial_cooldown).2)
      else
        (⟨dequeAppendleft cfg.max_event_log_size p st.event_log, some p,
          st.serial_cooldown⟩, []) := by
  by_cases hm : labelRead p.label ∈ cfg.watch_classes <;>
    simp [handle_event, hl, hm]

/-- C2: when the cooldown check passes, `_execute_safety_sequence` sends,
in order, STOP at entry time `now`, then (after waiting
`stop_to_reverse_delay`) REVERSE with the configured `reverse_duration`,
records the new `_serial_cooldown` as exactly the REVERSE-send time
`now + stop_to_reverse_delay` (independent of any resume step), and then
sends FORWARD after a further `forward_resume_delay` if and only if
`resume_with_forward` is enabled. -/
theorem c2_sequence_order (cfg : DetectionConfig) (now c : ℚ)
    (h : ¬ now - c < cfg.reverse_duration) :
    execute_safety_sequence cfg now c =
      (now + cfg.stop_to_reverse_delay,
        [⟨now, SerialCommand.stopCmd⟩,
         ⟨now + cfg.stop_to_reverse_delay,
          SerialCommand.reverseCmd cfg.reverse_duration⟩]
        ++ (if cfg.resume_with_forward then
              [⟨now + cfg.stop_to_reverse_delay + cfg.forward_resume_delay,
                SerialCommand.forwardCmd⟩]
            else [])) ∧
    (SerialCommand.forwardCmd ∈
        ((execute_safety_sequence cfg now c).2.map TimedCommand.cmd) ↔
      cfg.resume_with_forward = true) := by
  rw [execute_safety_sequence_triggered cfg now c h]
  refine ⟨rfl, ?_⟩
  by_cases hf : cfg.resume_with_forward <;> simp [triggeredCommands, hf]

/-- Witness for `c2_sequence_order` at `defaultConfig`, `now = 5`,
`c = 0`. -/
theorem c2_sequence_order_witness :
    ¬ (5 : ℚ) - 0 < defaultConfig.reverse_duration ∧
    (execute_safety_sequence defaultConfig 5 0 =
      (5 + defaultConfig.stop_to_reverse_delay,
        [⟨5, SerialCommand.stopCmd⟩,
         ⟨5 + defaultConfig.stop_to_reverse_delay,
          SerialCommand.reverseCmd defaultConfig.reverse_duration⟩]
        ++ (if defaultConfig.resume_with_forward then
              [⟨5 + defaultConfig.stop_to_reverse_delay +
                  defaultConfig.forward_resume_delay,
                SerialCommand.forwardCmd⟩]
            else [])) ∧
     (SerialCommand.forwardCmd ∈
        ((execute_safety_sequence defaultConfig 5 0).2.map TimedCommand.cmd) ↔
      defaultConfig.resume_with_forward = true)) :=
  ⟨by norm_num [defaultConfig],
   c2_sequence_order defaultConfig 5 0 (by norm_num [defaultConfig])⟩

/-- C9: `OrchestratorRuntime.__init__` sets `_serial_cooldown = 0.0`, so
the first qualifying detection event handled at any time at least
`reverse_duration` past epoch 0 passes the cooldown check and starts a
safety sequence. -/
theorem c9_first_trigger (cfg : DetectionConfig) (ev : Event) (now : ℚ)
    (hq : Qualifying cfg ev) (hnow : cfg.reverse_duration ≤ now) :
    initialRuntimeState.serial_cooldown = 0 ∧
    countStops (handle_event cfg now initialRuntimeState ev).2 = 1 := by
  obtain ⟨hty, p, hp, hl, hm⟩ := hq
  obtain ⟨ty, pl⟩ := ev
  cases hty
  cases hp
  refine ⟨rfl, ?_⟩
  rw [handle_event_labeled cfg now initialRuntimeState p hl, if_pos hm]
  rw [execute_safety_sequence_triggered]
  · exact countStops_triggeredCommands cfg now
  · simp only [initialRuntimeState, not_lt]
    linarith

/-- Witness for `c9_first_trigger`: a person detection at `now = 2` with
the default configuration. -/
theorem c9_first_trigger_witness :
    Qualifying defaultConfig ⟨"detection", some ⟨some "person", 9/10, [], 2⟩⟩ ∧
    defaultConfig.reverse_duration ≤ (2 : ℚ) ∧
    (initialRuntimeState.serial_cooldown = 0 ∧
     countStops (handle_event defaultConfig 2 initialRuntimeState
       ⟨"detection", some ⟨some "person", 9/10, [], 2⟩⟩).2 = 1) :=
  ⟨⟨rfl, ⟨some "person", 9/10, [], 2⟩, rfl, by simp [labelRead],
     by simp [labelRead, defaultConfig]⟩,
   by norm_num [defaultConfig],
   c9_first_trigger defaultConfig ⟨"detection", some ⟨some "person", 9/10, [], 2⟩⟩ 2
     ⟨rfl, ⟨some "person", 9/10, [], 2⟩, rfl, by simp [labelRead],
       by simp [labelRead, defaultConfig]⟩
     (by norm_num [defaultConfig])⟩

/-- C1: with cooldown duration `D = reverse_duration`, a qualifying
event handled at `t₁` that passes the cooldown check starts exactly one
safety sequence; a second qualifying event handled `Δ < D` later is
dropped (no commands are sent and the recorded trigger time is left
unchanged — the event is not deferred); and a qualifying event handled
at least `D` after the recorded trigger time starts a second sequence.
`0 ≤ stop_to_reverse_delay` reflects that delays are durations. -/
theorem c1_cooldown_debounce (cfg : DetectionConfig) (st : RuntimeState)
    (e1 e2 e3 : Event) (t₁ Δ t₃ : ℚ)
    (hsd : 0 ≤ cfg.stop_to_reverse_delay)
    (h1 : Qualifying cfg e1) (h2 : Qualifying cfg e2) (h3 : Qualifying cfg e3)
    (hpass : cfg.reverse_duration ≤ t₁ - st.serial_cooldown)
    (hΔ0 : 0 ≤ Δ) (hΔ : Δ < cfg.reverse_duration) :
    countStops (handle_event cfg t₁ st e1).2 = 1 ∧
    (handle_event cfg (t₁ + Δ) (handle_event cfg t₁ st e1).1 e2).2 = [] ∧
    (handle_event cfg (t₁ + Δ) (handle_event cfg t₁ st e1).1 e2).1.serial_cooldown
      = (handle_event cfg t₁ st e1).1.serial_cooldown ∧
    (cfg.reverse_duration ≤
        t₃ - (handle_event cfg (t₁ + Δ) (handle_event cfg t₁ st e1).1 e2).1.serial_cooldown →
      countStops (handle_event cfg t₃
        (handle_event cfg (t₁ + Δ) (handle_event cfg t₁ st e1).1 e2).1 e3).2 = 1) := by
  obtain ⟨hty1, p1, hp1, hl1, hm1⟩ := h1
  obtain ⟨hty2, p2, hp2, hl2, hm2⟩ := h2
  obtain ⟨hty3, p3, hp3, hl3, hm3⟩ := h3
  obtain ⟨ty1, pl1⟩ := e1
  obtain ⟨ty2, pl2⟩ := e2
  obtain ⟨ty3, pl3⟩ := e3
  cases hty1; cases hp1; cases hty2; cases hp2; cases hty3; cases hp3
  have hnot1 : ¬ t₁ - st.serial_cooldown < cfg.reverse_duration := not_lt.mpr hpass
  rw [handle_event_labeled cfg t₁ st p1 hl1, if_pos hm1,
    execute_safety_sequence_triggered cfg t₁ st.serial_cooldown hnot1]
  refine ⟨countStops_triggeredCommands cfg t₁, ?_⟩
  have hskip2 : (t₁ + Δ) - (t₁ + cfg.stop_to_reverse_delay) < cfg.reverse_duration := by
    linarith
  rw [handle_event_labeled cfg (t₁ + Δ) _ p2 hl2, if_pos hm2]
  simp only [execute_safety_sequence_skipped cfg (t₁ + Δ) (t₁ + cfg.stop_to_reverse_delay)
    hskip2]
  refine ⟨trivial, trivial, ?_⟩
  intro hpass3
  have hnot3 : ¬ t₃ - (t₁ + cfg.stop_to_reverse_delay) < cfg.reverse_duration :=
    not_lt.mpr hpass3
  rw [handle_event_labeled cfg t₃ _ p3 hl3, if_pos hm3,
    execute_safety_sequence_triggered cfg t₃ (t₁ + cfg.stop_to_reverse_delay) hnot3]
  exact countStops_triggeredCommands cfg t₃

/-- A concrete qualifying person event used by several witnesses. -/
def personEvent (t : ℚ) : Event :=
  ⟨"detection", some ⟨some "person", 9/10, [], t⟩⟩

lemma personEvent_qualifying (t : ℚ) :
    Qualifying defaultConfig (personEvent t) :=
  ⟨rfl, ⟨some "person", 9/10, [], t⟩, rfl, by simp [labelRead],
    by simp [labelRead, defaultConfig]⟩

/-- Witness for `c1_cooldown_debounce`: default configuration, first
event at `t₁ = 2`, second `Δ = 1 < 1.5` later, third at `t₃ = 9/2`
(which is `1.5` past the recorded trigger time `3`). -/
theorem c1_cooldown_debounce_witness :
    ((0 : ℚ) ≤ defaultConfig.stop_to_reverse_delay ∧
     defaultConfig.reverse_duration ≤ (2 : ℚ) - initialRuntimeState.serial_cooldown ∧
     (0 : ℚ) ≤ 1 ∧ (1 : ℚ) < defaultConfig.reverse_duration) ∧
    (countStops (handle_event defaultConfig 2 initialRuntimeState (personEvent 2)).2 = 1 ∧
     (handle_event defaultConfig (2 + 1)
       (handle_event defaultConfig 2 initialRuntimeState (personEvent 2)).1
       (personEvent 3)).2 = [] ∧
     (handle_event defaultConfig (2 + 1)
       (handle_event defaultConfig 2 initialRuntimeState (personEvent 2)).1
       (personEvent 3)).1.serial_cooldown
       = (handle_event defaultConfig 2 initialRuntimeState (personEvent 2)).1.serial_cooldown ∧
     (defaultConfig.reverse_duration ≤
        (9/2 : ℚ) - (handle_event defaultConfig (2 + 1)
          (handle_event defaultConfig 2 initialRuntimeState (personEvent 2)).1
          (personEvent 3)).1.serial_cooldown →
       countStops (handle_event defaultConfig (9/2)
         (handle_event defaultConfig (2 + 1)
           (handle_event defaultConfig 2 initialRuntimeState (personEvent 2)).1
           (personEvent 3)).1 (personEvent (9/2))).2 = 1)) :=
  ⟨⟨by norm_num [defaultConfig], by norm_num [defaultConfig, initialRuntimeState],
    by norm_num, by norm_num [defaultConfig]⟩,
   c1_cooldown_debounce defaultConfig initialRuntimeState
     (personEvent 2) (personEvent 3) (personEvent (9/2)) 2 1 (9/2)
     (by norm_num [defaultConfig])
     (personEvent_qualifying 2) (personEvent_qualifying 3)
     (personEvent_qualifying (9/2))
     (by norm_num [defaultConfig, initialRuntimeState])
     (by norm_num) (by norm_num [defaultConfig])⟩

lemma dequeAppendleft_length_le (N : ℕ) (hN : 0 < N) (p : Payload)
    (log : List Payload) : (dequeAppendleft N p log).length ≤ N := by
  simp only [dequeAppendleft, if_neg (Nat.pos_iff_ne_zero.mp hN)]
  simp only [List.length_cons, List.length_take]
  omega

/-- The event log of `handle_event` is either unchanged or a
`dequeAppendleft` of the previous log. -/
lemma handle_event_log_cases (cfg : DetectionConfig) (now : ℚ)
    (st : RuntimeState) (ev : Event) :
    (handle_event cfg now st ev).1.event_log = st.event_log ∨
    ∃ p, (handle_event cfg now st ev).1.event_log =
      dequeAppendleft cfg.max_event_log_size p st.event_log := by
  by_cases h1 : ev.type = "detection"
  · by_cases h2 : labelRead (ev.payload.getD ⟨none, 0, [], 0⟩).label = ""
    · left; simp [handle_event, h1, h2]
    · by_cases h3 : labelRead (ev.payload.getD ⟨none, 0, [], 0⟩).label ∈ cfg.watch_classes
      · right; exact ⟨ev.payload.getD ⟨none, 0, [], 0⟩, by simp [handle_event, h1, h2, h3]⟩
      · right; exact ⟨ev.payload.getD ⟨none, 0, [], 0⟩, by simp [handle_event, h1, h2, h3]⟩
  · left; simp [handle_event, h1]

lemma runEvents_log_le (cfg : DetectionConfig) (hN : 0 < cfg.max_event_log_size)
    (events : List (ℚ × Event)) :
    ∀ st : RuntimeState, st.event_log.length ≤ cfg.max_event_log_size →
      ((runEvents cfg st events).1.event_log).length ≤ cfg.max_event_log_size := by
  induction events with
  | nil => intro st h; exact h
  | cons te rest ih =>
    intro st h
    obtain ⟨t, ev⟩ := te
    simp only [runEvents]
    apply ih
    rcases handle_event_log_cases cfg t st ev with hsame | ⟨p, happ⟩
    · rw [hsame]; exact h
    · rw [happ]; exact dequeAppendleft_length_le _ hN p _

/-- C5: with configured capacity `N > 0`, (a) the event log reached from
a fresh runtime by any sequence of handled events never holds more than
`N` entries, (b) an insertion into a full log evicts the oldest (last)
entry, and (c) the most recently inserted payload is always first. -/
theorem c5_event_log_bounded (N : ℕ) (hN : 0 < N) :
    (∀ (cfg : DetectionConfig) (events : List (ℚ × Event)),
      cfg.max_event_log_size = N →
      ((runEvents cfg initialRuntimeState events).1.event_log).length ≤ N) ∧
    (∀ (log : List Payload) (p : Payload), log.length = N →
      dequeAppendleft N p log = p :: log.dropLast) ∧
    (∀ (log : List Payload) (p : Payload),
      (dequeAppendleft N p log).head? = some p) := by
  refine ⟨?_, ?_, ?_⟩
  · intro cfg events hcfg
    subst hcfg
    exact runEvents_log_le cfg hN events initialRuntimeState (by simp [initialRuntimeState])
  · intro log p hlen
    simp only [dequeAppendleft, if_neg (Nat.pos_iff_ne_zero.mp hN)]
    rw [List.dropLast_eq_take, hlen]
  · intro log p
    simp [dequeAppendleft, Nat.pos_iff_ne_zero.mp hN]

/-- Witness for `c5_event_log_bounded` at capacity `N = 2` with a full
log of two payloads. -/
theorem c5_event_log_bounded_witness :
    0 < 2 ∧
    dequeAppendleft 2 ⟨some "a", 1, [], 3⟩
        [⟨some "b", 1, [], 2⟩, ⟨some "c", 1, [], 1⟩]
      = ⟨some "a", 1, [], 3⟩ ::
          ([⟨some "b", 1, [], 2⟩, ⟨some "c", 1, [], 1⟩] : List Payload).dropLast :=
  ⟨by decide,
   (c5_event_log_bounded 2 (by decide)).2.1
     [⟨some "b", 1, [], 2⟩, ⟨some "c", 1, [], 1⟩] ⟨some "a", 1, [], 3⟩ rfl⟩

/-- The §8 scenario configuration: watch set `{person}`, everything else
at its default (`stop_to_reverse_delay = 1`, `reverse_duration = 1.5`,
`forward_resume_delay = 1`, `resume_with_forward = true`, log size 100). -/
def scenarioConfig : DetectionConfig :=
  { defaultConfig with watch_classes := ["person"] }

/-- A detection event of the §8 scenario carrying label `l` at time `t`. -/
def scenarioEvent (l : String) (t : ℚ) : Event :=
  ⟨"detection", some ⟨some l, 1/2, [], t⟩⟩

/-- The §8 scenario event trace `person@t0, person@t0+0.2, bottle@t0+0.3,
person@t0+2`, each handled at its own timestamp.  `t0` is the scenario's
time origin (`time.time()` is epoch-based, so the trace starts at some
`t0`, not at absolute 0). -/
def scenarioEvents (t0 : ℚ) : List (ℚ × Event) :=
  [(t0, scenarioEvent "person" t0),
   (t0 + 1/5, scenarioEvent "person" (t0 + 1/5)),
   (t0 + 3/10, scenarioEvent "bottle" (t0 + 3/10)),
   (t0 + 2, scenarioEvent "person" (t0 + 2))]

/-- C6 counterexample: with the default `stop_to_reverse_delay = 1`, the
§8 scenario trace (watch set `{person}`, cooldown `D = 1.5`, person
events at relative times 0, 0.2 and 2.0, bottle at 0.3, origin `t0 = 100`)
executes exactly ONE safety sequence, not the two the claim asserts: the
trigger time is recorded at REVERSE-send time `t0 + 1`, so the event at
`t0 + 2` sits inside the cooldown window (`2 - 1 = 1 < 1.5`). -/
theorem c6_scenario_counterexample :
    countStops (runEvents scenarioConfig initialRuntimeState (scenarioEvents 100)).2 = 1 ∧
    countStops (runEvents scenarioConfig initialRuntimeState (scenarioEvents 100)).2 ≠ 2 := by
  have h : countStops (runEvents scenarioConfig initialRuntimeState (scenarioEvents 100)).2
      = 1 := by
    simp [runEvents, handle_event, execute_safety_sequence, labelRead, countStops,
      dequeAppendleft, scenarioConfig, scenarioEvents, scenarioEvent, defaultConfig,
      initialRuntimeState]
    norm_num [countStops] <;> simp
  exact ⟨h, by rw [h]; decide⟩

/-- Times at which a command list sends STOP (one per safety sequence). -/
def stopTimes : List TimedCommand → List ℚ
  | [] => []
  | c :: rest =>
    if c.cmd = SerialCommand.stopCmd then c.time :: stopTimes rest
    else stopTimes rest

lemma stopTimes_append (a b : List TimedCommand) :
    stopTimes (a ++ b) = stopTimes a ++ stopTimes b := by
  induction a with
  | nil => simp [stopTimes]
  | cons c rest ih =>
    by_cases h : c.cmd = SerialCommand.stopCmd <;>
      simp [stopTimes, h, ih]

lemma countStops_eq_length_stopTimes (l : List TimedCommand) :
    countStops l = (stopTimes l).length := by
  induction l with
  | nil => simp [countStops, stopTimes]
  | cons c rest ih =>
    by_cases h : c.cmd = SerialCommand.stopCmd <;>
      simp [countStops, stopTimes, h, ih] <;> omega

lemma stopTimes_triggeredCommands (cfg : DetectionConfig) (now : ℚ) :
    stopTimes (triggeredCommands cfg now) = [now] := by
  by_cases hf : cfg.resume_with_forward <;>
    simp [triggeredCommands, stopTimes, hf]

lemma handle_event_trigger_eq (cfg : DetectionConfig) (now : ℚ)
    (st : RuntimeState) (p : Payload) (hl : labelRead p.label ≠ "")
    (hm : labelRead p.label ∈ cfg.watch_classes)
    (hc : ¬ now - st.serial_cooldown < cfg.reverse_duration) :
    handle_event cfg now st ⟨"detection", some p⟩ =
      (⟨dequeAppendleft cfg.max_event_log_size p st.event_log, some p,
        now + cfg.stop_to_reverse_delay⟩, triggeredCommands cfg now) := by
  rw [handle_event_labeled cfg now st p hl, if_pos hm,
    execute_safety_sequence_triggered cfg now st.serial_cooldown hc]

lemma handle_event_skip_eq (cfg : DetectionConfig) (now : ℚ)
    (st : RuntimeState) (p : Payload) (hl : labelRead p.label ≠ "")
    (hm : labelRead p.label ∈ cfg.watch_classes)
    (hc : now - st.serial_cooldown < cfg.reverse_duration) :
    handle_event cfg now st ⟨"detection", some p⟩ =
      (⟨dequeAppendleft cfg.max_event_log_size p st.event_log, some p,
        st.serial_cooldown⟩, []) := by
  rw [handle_event_labeled cfg now st p hl, if_pos hm,
    execute_safety_sequence_skipped cfg now st.serial_cooldown hc]

lemma handle_event_nonwatch_eq (cfg : DetectionConfig) (now : ℚ)
    (st : RuntimeState) (p : Payload) (hl : labelRead p.label ≠ "")
    (hm : labelRead p.label ∉ cfg.watch_classes) :
    handle_event cfg now st ⟨"detection", some p⟩ =
      (⟨dequeAppendleft cfg.max_event_log_size p st.event_log, some p,
        st.serial_cooldown⟩, []) := by
  rw [handle_event_labeled cfg now st p hl, if_neg hm]

lemma dequeAppendleft_small (N : ℕ) (p : Payload) (log : List Payload)
    (h : log.length + 1 ≤ N) : dequeAppendleft N p log = p :: log := by
  have hN : N ≠ 0 := by omega
  simp only [dequeAppendleft, if_neg hN]
  rw [List.take_of_length_le (by omega)]

/-- C6 amended: with watch set `{person}`, cooldown `D = 1.5`, log
capacity at least 4 and the four scenario events handled at times
`t0, t0+0.2, t0+0.3, t0+2` (with `t0 ≥ D` past epoch 0): all four events
are appended to the event log (newest first) and no sequence runs for
the bottle event, and — provided `stop_to_reverse_delay ≤ 0.5`, since
the trigger time is recorded at REVERSE-send time
`t0 + stop_to_reverse_delay` — exactly two safety sequences execute,
started at `t0` and `t0 + 2`.  (With the default
`stop_to_reverse_delay = 1` the last event is dropped as well, see the
counterexample.) -/
theorem c6_scenario_amended (cfg : DetectionConfig) (t0 : ℚ)
    (hw : cfg.watch_classes = ["person"])
    (hD : cfg.reverse_duration = 3/2)
    (hsd0 : 0 ≤ cfg.stop_to_reverse_delay)
    (hsd : cfg.stop_to_reverse_delay ≤ 1/2)
    (hN : 4 ≤ cfg.max_event_log_size)
    (ht0 : 3/2 ≤ t0) :
    countStops (runEvents cfg initialRuntimeState (scenarioEvents t0)).2 = 2 ∧
    stopTimes (runEvents cfg initialRuntimeState (scenarioEvents t0)).2 = [t0, t0 + 2] ∧
    (runEvents cfg initialRuntimeState (scenarioEvents t0)).1.event_log =
      [⟨some "person", 1/2, [], t0 + 2⟩, ⟨some "bottle", 1/2, [], t0 + 3/10⟩,
       ⟨some "person", 1/2, [], t0 + 1/5⟩, ⟨some "person", 1/2, [], t0⟩] := by
  have hlp : labelRead (some "person") ≠ "" := by simp [labelRead]
  have hlb : labelRead (some "bottle") ≠ "" := by simp [labelRead]
  have hmp : labelRead (some "person") ∈ cfg.watch_classes := by
    simp [labelRead, hw]
  have hmb : labelRead (some "bottle") ∉ cfg.watch_classes := by
    simp [labelRead, hw]
  have s1 := handle_event_trigger_eq cfg t0 initialRuntimeState
    ⟨some "person", 1/2, [], t0⟩ hlp hmp
    (by simp only [initialRuntimeState]; rw [hD]; intro hcon; linarith)
  rw [dequeAppendleft_small cfg.max_event_log_size _ _
    (by simp [initialRuntimeState]; omega)] at s1
  have s2 := handle_event_skip_eq cfg (t0 + 1/5)
    (⟨[⟨some "person", 1/2, [], t0⟩], some ⟨some "person", 1/2, [], t0⟩,
      t0 + cfg.stop_to_reverse_delay⟩ : RuntimeState)
    ⟨some "person", 1/2, [], t0 + 1/5⟩ hlp hmp
    (by simp only []; rw [hD]; linarith)
  rw [dequeAppendleft_small cfg.max_event_log_size _ _ (by simp; omega)] at s2
  have s3 := handle_event_nonwatch_eq cfg (t0 + 3/10)
    (⟨[⟨some "person", 1/2, [], t0 + 1/5⟩, ⟨some "person", 1/2, [], t0⟩],
      some ⟨some "person", 1/2, [], t0 + 1/5⟩,
      t0 + cfg.stop_to_reverse_delay⟩ : RuntimeState)
    ⟨some "bottle", 1/2, [], t0 + 3/10⟩ hlb hmb
  rw [dequeAppendleft_small cfg.max_event_log_size _ _ (by simp; omega)] at s3
  have s4 := handle_event_trigger_eq cfg (t0 + 2)
    (⟨[⟨some "bottle", 1/2, [], t0 + 3/10⟩, ⟨some "person", 1/2, [], t0 + 1/5⟩,
       ⟨some "person", 1/2, [], t0⟩],
      some ⟨some "bottle", 1/2, [], t0 + 3/10⟩,
      t0 + cfg.stop_to_reverse_delay⟩ : RuntimeState)
    ⟨some "person", 1/2, [], t0 + 2⟩ hlp hmp
    (by simp only []; rw [hD]; intro hcon; linarith)
  rw [dequeAppendleft_small cfg.max_event_log_size _ _ (by simp; omega)] at s4
  dsimp only [initialRuntimeState] at s1 s2 s3 s4
  have hrun : runEvents cfg initialRuntimeState (scenarioEvents t0) =
      ((⟨[⟨some "person", 1/2, [], t0 + 2⟩, ⟨some "bottle", 1/2, [], t0 + 3/10⟩,
          ⟨some "person", 1/2, [], t0 + 1/5⟩, ⟨some "person", 1/2, [], t0⟩],
         some ⟨some "person", 1/2, [], t0 + 2⟩,
         (t0 + 2) + cfg.stop_to_reverse_delay⟩ : RuntimeState),
       triggeredCommands cfg t0 ++ ([] ++ ([] ++ (triggeredCommands cfg (t0 + 2) ++ [])))) := by
    simp only [scenarioEvents, scenarioEvent, runEvents, initialRuntimeState,
      s1, s2, s3, s4]
  rw [hrun]
  refine ⟨?_, ?_, rfl⟩
  · simp only [countStops_eq_length_stopTimes, List.append_nil, List.nil_append,
      stopTimes_append, stopTimes_triggeredCommands]
    simp
  · simp only [List.append_nil, List.nil_append, stopTimes_append,
      stopTimes_triggeredCommands]
    simp [stopTimes]

/-- The scenario configuration with `stop_to_reverse_delay` shortened to
`0.5`, under which the §8 scenario behaves as the spec describes. -/
def scenarioConfigShortDelay : DetectionConfig :=
  { scenarioConfig with stop_to_reverse_delay := 1/2 }

/-- Witness for `c6_scenario_amended` at `stop_to_reverse_delay = 0.5`,
`t0 = 2`. -/
theorem c6_scenario_amended_witness :
    (scenarioConfigShortDelay.watch_classes = ["person"] ∧
     scenarioConfigShortDelay.reverse_duration = 3/2 ∧
     (0 : ℚ) ≤ scenarioConfigShortDelay.stop_to_reverse_delay ∧
     scenarioConfigShortDelay.stop_to_reverse_delay ≤ 1/2 ∧
     4 ≤ scenarioConfigShortDelay.max_event_log_size ∧
     (3/2 : ℚ) ≤ 2) ∧
    (countStops (runEvents scenarioConfigShortDelay initialRuntimeState
        (scenarioEvents 2)).2 = 2 ∧
     stopTimes (runEvents scenarioConfigShortDelay initialRuntimeState
        (scenarioEvents 2)).2 = [2, 2 + 2] ∧
     (runEvents scenarioConfigShortDelay initialRuntimeState
        (scenarioEvents 2)).1.event_log =
       [⟨some "person", 1/2, [], 2 + 2⟩, ⟨some "bottle", 1/2, [], 2 + 3/10⟩,
        ⟨some "person", 1/2, [], 2 + 1/5⟩, ⟨some "person", 1/2, [], 2⟩]) :=
  ⟨⟨rfl, rfl, by norm_num [scenarioConfigShortDelay, scenarioConfig, defaultConfig],
    by norm_num [scenarioConfigShortDelay, scenarioConfig, defaultConfig],
    by norm_num [scenarioConfigShortDelay, scenarioConfig, defaultConfig],
    by norm_num⟩,
   c6_scenario_amended scenarioConfigShortDelay 2 rfl rfl
     (by norm_num [scenarioConfigShortDelay, scenarioConfig, defaultConfig])
     (by norm_num [scenarioConfigShortDelay, scenarioConfig, defaultConfig])
     (by norm_num [scenarioConfigShortDelay, scenarioConfig, defaultConfig])
     (by norm_num)⟩

/-- Outcome of one iteration of `DetectionEventsClient._run`'s `try`
block: the connection attempt raises a `requests.RequestException`
before streaming starts (`connectError`), the connection succeeds but a
`RequestException` is raised while streaming (`streamError`), or the
`with` block ends without an exception (`streamEnd` — the server closed
the stream, or the stop event broke the read loop). -/
inductive AttemptOutcome where
  | connectError
  | streamError
  | streamEnd
  deriving DecidableEq, Repr

/-- The `backoff = min(backoff * 2, 30)` update after a failure; note
the cap is the literal `30`, not a configured value. -/
def sseBackoffNext (backoff : ℚ) : ℚ :=
  min (backoff * 2) 30

/-- The sleep durations performed by `DetectionEventsClient._run` over a
sequence of iteration outcomes, starting from the current `backoff`
value: an exception path sleeps `backoff` then doubles it (capped at
30); a clean stream end resets `backoff` to the configured base and
sleeps nothing. -/
def runSleeps (base : ℚ) : ℚ → List AttemptOutcome → List ℚ
  | _, [] => []
  | _, AttemptOutcome.streamEnd :: rest => runSleeps base base rest
  | backoff, AttemptOutcome.connectError :: rest =>
    backoff :: runSleeps base (sseBackoffNext backoff) rest
  | backoff, AttemptOutcome.streamError :: rest =>
    backoff :: runSleeps base (sseBackoffNext backoff) rest

/-- The sleeps of a freshly started client (`backoff = SSE_BACKOFF_SEC`). -/
def clientSleeps (base : ℚ) (outcomes : List AttemptOutcome) : List ℚ :=
  runSleeps base base outcomes

/-- C3 counterexample: with configured base `B = 40` the first failure
sleeps `40`, not `min(B, 30) = 30` — the first sleep is the uncapped
base, because the `min(..., 30)` cap is applied only when doubling. -/
theorem c3_backoff_counterexample :
    clientSleeps 40 [AttemptOutcome.connectError] = [40] ∧
    min ((2 : ℚ) ^ 0 * 40) 30 = 30 ∧ (40 : ℚ) ≠ 30 := by
  refine ⟨rfl, ?_, by norm_num⟩
  norm_num

lemma min_two_pow_mul_min (a : ℚ) (k : ℕ) (_ha : 0 ≤ a) :
    min ((2 : ℚ) ^ k * min a 30) 30 = min ((2 : ℚ) ^ k * a) 30 := by
  have h2 : (1 : ℚ) ≤ 2 ^ k := one_le_pow₀ (by norm_num)
  rcases le_total a 30 with h | h
  · rw [min_eq_left h]
  · rw [min_eq_right h]
    have h30 : (30 : ℚ) ≤ 2 ^ k * 30 := le_mul_of_one_le_left (by norm_num) h2
    have h30' : (30 : ℚ) ≤ 2 ^ k * a :=
      le_trans h (le_mul_of_one_le_left (by linarith) h2)
    rw [min_eq_right h30, min_eq_right h30']

lemma runSleeps_failures (base : ℚ) :
    ∀ (outcomes : List AttemptOutcome)
      (_ : ∀ o ∈ outcomes, o ≠ AttemptOutcome.streamEnd)
      (b : ℚ) (_ : 0 ≤ b) (k : ℕ) (_ : k < outcomes.length),
      (runSleeps base b outcomes).get? k =
        some (if k = 0 then b else min ((2 : ℚ) ^ k * b) 30) := by
  intro outcomes
  induction outcomes with
  | nil => intro _ b _ k hk; simp at hk
  | cons o rest ih =>
    intro hfail b hb k hk
    have ho : o ≠ AttemptOutcome.streamEnd := hfail o (List.mem_cons_self o rest)
    have hstep : runSleeps base b (o :: rest) =
        b :: runSleeps base (sseBackoffNext b) rest := by
      cases o with
      | connectError => rfl
      | streamError => rfl
      | streamEnd => exact absurd rfl ho
    rw [hstep]
    cases k with
    | zero => simp
    | succ k =>
      have hrest : ∀ o ∈ rest, o ≠ AttemptOutcome.streamEnd := by
        intro o' ho'; exact hfail o' (List.mem_cons_of_mem o ho')
      have hb' : 0 ≤ sseBackoffNext b := by
        simp only [sseBackoffNext, le_min_iff]
        constructor <;> [linarith; norm_num]
      have hk' : k < rest.length := by simpa using hk
      rw [List.get?_cons_succ, ih hrest (sseBackoffNext b) hb' k hk']
      cases k with
      | zero =>
        simp [sseBackoffNext, pow_one, mul_comm]
      | succ j =>
        simp only [Nat.succ_ne_zero, if_neg, if_false, sseBackoffNext]
        rw [min_two_pow_mul_min (b * 2) (j + 1) (by linarith)]
        rw [show (2 : ℚ) ^ (j + 1) * (b * 2) = 2 ^ (j + 1 + 1) * b by ring]

/-- C3 amended: the cap is the constant 30 (not configurable), and the
first sleep is the raw base, so for a base `0 ≤ B ≤ 30` the sleeps for
consecutive failures are `B = min(B,30), min(2B,30), min(4B,30), …`;
the backoff resets to `B` only after an attempt whose stream ends
without raising (a mid-stream error after a successful connect instead
sleeps the still-accumulated backoff). -/
theorem c3_backoff_amended (B : ℚ) (hB0 : 0 ≤ B) (hB : B ≤ 30) :
    (∀ (outcomes : List AttemptOutcome),
      (∀ o ∈ outcomes, o ≠ AttemptOutcome.streamEnd) →
      ∀ k, k < outcomes.length →
        (clientSleeps B outcomes).get? k = some (min ((2 : ℚ) ^ k * B) 30)) ∧
    (∀ (b : ℚ) (post : List AttemptOutcome),
      runSleeps B b (AttemptOutcome.streamEnd :: post) = clientSleeps B post) := by
  constructor
  · intro outcomes hfail k hk
    rw [clientSleeps, runSleeps_failures B outcomes hfail B hB0 k hk]
    cases k with
    | zero => simp [min_eq_left hB]
    | succ j => simp
  · intro b post
    rfl

/-- Witness for `c3_backoff_amended`: base 2, five straight failures
(the third of which aborts an initially successful connection), fifth
sleep `min(2^4·2, 30) = 30`; and a reset after a clean stream end. -/
theorem c3_backoff_amended_witness :
    ((0 : ℚ) ≤ 2 ∧ (2 : ℚ) ≤ 30) ∧
    (clientSleeps 2 [AttemptOutcome.connectError, AttemptOutcome.connectError,
        AttemptOutcome.streamError, AttemptOutcome.connectError,
        AttemptOutcome.connectError]).get? 4 = some (min ((2 : ℚ) ^ 4 * 2) 30) ∧
    runSleeps 2 16 (AttemptOutcome.streamEnd :: [AttemptOutcome.connectError]) =
      clientSleeps 2 [AttemptOutcome.connectError] :=
  ⟨⟨by norm_num, by norm_num⟩,
   (c3_backoff_amended 2 (by norm_num) (by norm_num)).1
     [AttemptOutcome.connectError, AttemptOutcome.connectError,
      AttemptOutcome.streamError, AttemptOutcome.connectError,
      AttemptOutcome.connectError]
     (by intro o ho; fin_cases ho <;> simp)
     4 (by simp),
   (c3_backoff_amended 2 (by norm_num) (by norm_num)).2 16
     [AttemptOutcome.connectError]⟩

/-- The broadcast-hub part of `DetectionState` in
`backend/yolo_server.py`: the list of subscriber queues
(`event_queues`, in registration order, each an unbounded
`asyncio.Queue` modelled as the list of payloads delivered to it) plus
whether `set_event_loop` has run (`self.loop is not None`).  Queues are
tagged with ids so that a queue object keeps its identity across
operations; `nextId` generates fresh ids. -/
structure Hub where
  nextId : Nat
  queues : List (Nat × List Payload)
  loopSet : Bool
  deriving DecidableEq, Repr

/-- `DetectionState.register_queue`: create a fresh empty queue, append
it to `event_queues` under the lock, and return it (its id here). -/
def register_queue (h : Hub) : Hub × Nat :=
  ({ h with nextId := h.nextId + 1, queues := h.queues ++ [(h.nextId, [])] },
   h.nextId)

/-- `DetectionState.unregister_queue`: remove the queue if present
(ids are unique, so removing every entry with the id matches removing
the one occurrence). -/
def unregister_queue (h : Hub) (id : Nat) : Hub :=
  { h with queues := h.queues.filter (fun q => q.1 ≠ id) }

/-- `DetectionState.broadcast`: snapshot the queue list under the lock,
then `queue.put(payload)` on each snapshotted queue via
`run_coroutine_threadsafe`; if `self.loop is None` nothing is
delivered. -/
def broadcast (h : Hub) (p : Payload) : Hub :=
  if h.loopSet then
    { h with queues := h.queues.map (fun q => (q.1, q.2 ++ [p])) }
  else h

/-- A hub operation: an `/events` subscription, a detection broadcast,
or a subscriber disconnect. -/
inductive HubOp where
  | subscribe
  | publish (p : Payload)
  | unsubscribe (id : Nat)
  deriving DecidableEq, Repr

def applyHubOp (h : Hub) : HubOp → Hub
  | HubOp.subscribe => (register_queue h).1
  | HubOp.publish p => broadcast h p
  | HubOp.unsubscribe i => unregister_queue h i

def runHub : Hub → List HubOp → Hub
  | h, [] => h
  | h, op :: ops => runHub (applyHubOp h op) ops

/-- The payloads published by a list of hub operations, in order. -/
def pubsOf : List HubOp → List Payload
  | [] => []
  | HubOp.publish p :: ops => p :: pubsOf ops
  | _ :: ops => pubsOf ops

/-- Hub well-formedness: queue ids are distinct and below `nextId`
(true of every hub reachable from the initial one). -/
def HubWF (h : Hub) : Prop :=
  (h.queues.map Prod.fst).Nodup ∧ ∀ q ∈ h.queues, q.1 < h.nextId

lemma key_unique {l : List (Nat × List Payload)}
    (h : (l.map Prod.fst).Nodup) {i : Nat} {a b : List Payload}
    (ha : (i, a) ∈ l) (hb : (i, b) ∈ l) : a = b := by
  induction l with
  | nil => simp at ha
  | cons x xs ih =>
    simp only [List.map_cons, List.nodup_cons] at h
    rcases List.mem_cons.mp ha with hx | ha' <;>
      rcases List.mem_cons.mp hb with hy | hb'
    · rw [← hx] at hy; exact (Prod.mk.injEq _ _ _ _).mp hy.symm |>.2
    · exact absurd (List.mem_map.mpr ⟨(i, b), hb', by rw [← hx]⟩) h.1
    · exact absurd (List.mem_map.mpr ⟨(i, a), ha', by rw [← hy]⟩) h.1
    · exact ih h.2 ha' hb'

lemma loopSet_applyHubOp (h : Hub) (op : HubOp) :
    (applyHubOp h op).loopSet = h.loopSet := by
  cases op with
  | subscribe => rfl
  | publish p =>
    by_cases hl : h.loopSet <;> simp [applyHubOp, broadcast, hl]
  | unsubscribe i => rfl

lemma loopSet_runHub (ops : List HubOp) :
    ∀ h : Hub, (runHub h ops).loopSet = h.loopSet := by
  induction ops with
  | nil => intro h; rfl
  | cons op ops ih =>
    intro h; rw [runHub, ih, loopSet_applyHubOp]

lemma wf_applyHubOp (h : Hub) (op : HubOp) (hwf : HubWF h) :
    HubWF (applyHubOp h op) := by
  obtain ⟨hnd, hlt⟩ := hwf
  cases op with
  | subscribe =>
    constructor
    · simp only [applyHubOp, register_queue, List.map_append, List.map_cons,
        List.map_nil]
      rw [List.nodup_append]
      refine ⟨hnd, List.nodup_singleton _, ?_⟩
      intro a ha hb
      simp only [List.mem_singleton] at hb
      subst hb
      obtain ⟨q, hq, hfst⟩ := List.mem_map.mp ha
      exact absurd (hfst ▸ hlt q hq) (lt_irrefl _)
    · intro q hq
      simp only [applyHubOp, register_queue, List.mem_append,
        List.mem_singleton] at hq
      rcases hq with hq | hq
      · exact Nat.lt_succ_of_lt (hlt q hq)
      · subst hq; exact Nat.lt_succ_self _
  | publish p =>
    by_cases hl : h.loopSet
    · constructor
      · simp only [applyHubOp, broadcast, if_pos hl, List.map_map]
        have : (Prod.fst ∘ fun q : Nat × List Payload => (q.1, q.2 ++ [p]))
            = Prod.fst := rfl
        rw [this]; exact hnd
      · intro q hq
        simp only [applyHubOp, broadcast, if_pos hl, List.mem_map] at hq
        obtain ⟨q₀, hq₀, hmap⟩ := hq
        simp only [applyHubOp, broadcast, if_pos hl]
        rw [← hmap]
        exact hlt q₀ hq₀
    · simp only [applyHubOp, broadcast, if_neg hl]
      exact ⟨hnd, hlt⟩
  | unsubscribe i =>
    constructor
    · exact List.Nodup.sublist
        (List.Sublist.map Prod.fst (List.filter_sublist h.queues)) hnd
    · intro q hq
      exact hlt q (List.mem_of_mem_filter hq)

lemma wf_runHub (ops : List HubOp) :
    ∀ h : Hub, HubWF h → HubWF (runHub h ops) := by
  induction ops with
  | nil => intro h hwf; exact hwf
  | cons op ops ih =>
    intro h hwf
    exact ih _ (wf_applyHubOp h op hwf)

lemma nextId_mono_runHub (ops : List HubOp) :
    ∀ h : Hub, h.nextId ≤ (runHub h ops).nextId := by
  induction ops with
  | nil => intro h; exact le_refl _
  | cons op ops ih =>
    intro h
    refine le_trans ?_ (ih (applyHubOp h op))
    cases op with
    | subscribe => exact Nat.le_succ _
    | publish p => by_cases hl : h.loopSet <;> simp [applyHubOp, broadcast, hl]
    | unsubscribe i => exact le_refl _

lemma id_not_mem_runHub (ops : List HubOp) :
    ∀ h : Hub, HubWF h → ∀ id : Nat, id < h.nextId →
      id ∉ h.queues.map Prod.fst →
      id ∉ (runHub h ops).queues.map Prod.fst := by
  induction ops with
  | nil => intro h _ id _ hmem; exact hmem
  | cons op ops ih =>
    intro h hwf id hlt hmem
    refine ih (applyHubOp h op) (wf_applyHubOp h op hwf) id ?_ ?_
    · calc id < h.nextId := hlt
        _ ≤ _ := by
          cases op with
          | subscribe => exact Nat.le_succ _
          | publish p => by_cases hl : h.loopSet <;> simp [applyHubOp, broadcast, hl]
          | unsubscribe i => exact le_refl _
    · cases op with
      | subscribe =>
        simp only [applyHubOp, register_queue, List.map_append, List.map_cons,
          List.map_nil, List.mem_append, List.mem_singleton]
        rintro (hc | hc)
        · exact hmem hc
        · subst hc; exact absurd hlt (lt_irrefl _)
      | publish p =>
        by_cases hl : h.loopSet
        · simp only [applyHubOp, broadcast, if_pos hl, List.map_map]
          have : (Prod.fst ∘ fun q : Nat × List Payload => (q.1, q.2 ++ [p]))
              = Prod.fst := rfl
          rw [this]; exact hmem
        · simp only [applyHubOp, broadcast, if_neg hl]; exact hmem
      | unsubscribe i =>
        intro hc
        obtain ⟨q, hq, hfst⟩ := List.mem_map.mp hc
        exact hmem (List.mem_map.mpr ⟨q, List.mem_of_mem_filter hq, hfst⟩)

lemma member_runHub (ops : List HubOp) :
    ∀ h : Hub, HubWF h → h.loopSet = true →
      ∀ (id : Nat) (q q' : List Payload), (id, q) ∈ h.queues →
        (id, q') ∈ (runHub h ops).queues → q' = q ++ pubsOf ops := by
  induction ops with
  | nil =>
    intro h hwf _ id q q' hq hq'
    rw [pubsOf, List.append_nil]
    exact key_unique hwf.1 hq' hq
  | cons op ops ih =>
    intro h hwf hloop id q q' hq hq'
    cases op with
    | subscribe =>
      rw [runHub] at hq'
      rw [show pubsOf (HubOp.subscribe :: ops) = pubsOf ops from rfl]
      refine ih _ (wf_applyHubOp h _ hwf) ?_ id q q' ?_ hq'
      · rw [loopSet_applyHubOp]; exact hloop
      · simp only [applyHubOp, register_queue, List.mem_append]
        exact Or.inl hq
    | publish p =>
      rw [runHub] at hq'
      have hstep : (id, q ++ [p]) ∈ (applyHubOp h (HubOp.publish p)).queues := by
        simp only [applyHubOp, broadcast, if_pos hloop, List.mem_map]
        exact ⟨(id, q), hq, rfl⟩
      have := ih _ (wf_applyHubOp h _ hwf)
        (by rw [loopSet_applyHubOp]; exact hloop) id (q ++ [p]) q' hstep hq'
      rw [this, show pubsOf (HubOp.publish p :: ops) = p :: pubsOf ops from rfl,
        List.append_assoc]
      rfl
    | unsubscribe i =>
      rw [runHub] at hq'
      by_cases hi : i = id
      · subst hi
        have habs : i ∉ (applyHubOp h (HubOp.unsubscribe i)).queues.map Prod.fst := by
          intro hc
          obtain ⟨q₀, hq₀, hfst⟩ := List.mem_map.mp hc
          have := List.of_mem_filter hq₀
          simp only [decide_eq_true_eq] at this
          exact this hfst
        have hnot := id_not_mem_runHub ops (applyHubOp h (HubOp.unsubscribe i))
          (wf_applyHubOp h _ hwf) i
          (show i < (applyHubOp h (HubOp.unsubscribe i)).nextId from
            hwf.2 (i, q) hq) habs
        exact absurd (List.mem_map.mpr ⟨(i, q'), hq', rfl⟩) hnot
      · refine ih _ (wf_applyHubOp h _ hwf) ?_ id q q' ?_ hq'
        · rw [loopSet_applyHubOp]; exact hloop
        · simp only [applyHubOp, unregister_queue]
          refine List.mem_filter.mpr ⟨hq, ?_⟩
          simp [Ne.symm hi]

lemma runHub_append (a b : List HubOp) :
    ∀ h : Hub, runHub h (a ++ b) = runHub (runHub h a) b := by
  induction a with
  | nil => intro h; rfl
  | cons op ops ih => intro h; rw [List.cons_append, runHub, runHub, ih]

/-- C4: for every well-formed hub whose event loop is set and every
sequence of hub operations: (a) a `broadcast` appends the payload to
every queue registered at the instant of the call, at the end (publish
order), and each queue's new content is a function of that queue's own
previous content only — delivery to one subscriber cannot block or be
affected by another subscriber; (b) a subscriber registered before the
operations that is still registered afterwards has received exactly the
payloads published in between, appended in publish order; (c) a
subscriber registered by a mid-trace `subscribe` holds exactly the
payloads published after its registration — nothing published before. -/
theorem c4_broadcast_hub (h : Hub) (hwf : HubWF h) (hloop : h.loopSet = true) :
    (∀ (p : Payload) (id : Nat) (q : List Payload), (id, q) ∈ h.queues →
      (id, q ++ [p]) ∈ (broadcast h p).queues) ∧
    (∀ (ops : List HubOp) (id : Nat) (q q' : List Payload),
      (id, q) ∈ h.queues → (id, q') ∈ (runHub h ops).queues →
      q' = q ++ pubsOf ops) ∧
    (∀ (pre post : List HubOp) (q' : List Payload),
      ((runHub h pre).nextId, q') ∈
        (runHub h (pre ++ HubOp.subscribe :: post)).queues →
      q' = pubsOf post) := by
  refine ⟨?_, ?_, ?_⟩
  · intro p id q hq
    simp only [broadcast, if_pos hloop, List.mem_map]
    exact ⟨(id, q), hq, rfl⟩
  · intro ops id q q' hq hq'
    exact member_runHub ops h hwf hloop id q q' hq hq'
  · intro pre post q' hq'
    rw [runHub_append, show runHub (runHub h pre) (HubOp.subscribe :: post)
      = runHub (applyHubOp (runHub h pre) HubOp.subscribe) post from rfl] at hq'
    have hwf1 : HubWF (runHub h pre) := wf_runHub pre h hwf
    have hwf2 := wf_applyHubOp (runHub h pre) HubOp.subscribe hwf1
    have hloop2 : (applyHubOp (runHub h pre) HubOp.subscribe).loopSet = true := by
      rw [loopSet_applyHubOp, loopSet_runHub]; exact hloop
    have hmem : ((runHub h pre).nextId, ([] : List Payload)) ∈
        (applyHubOp (runHub h pre) HubOp.subscribe).queues := by
      simp [applyHubOp, register_queue]
    have := member_runHub post _ hwf2 hloop2 (runHub h pre).nextId [] q' hmem hq'
    rwa [List.nil_append] at this

/-- Witness for `c4_broadcast_hub`: one initial subscriber (id 0), then
`publish pa; subscribe; publish pb`: subscriber 0 ends with `[pa, pb]`,
the late subscriber (id 1) with `[pb]` only. -/
theorem c4_broadcast_hub_witness :
    (HubWF ⟨1, [(0, [])], true⟩ ∧ (⟨1, [(0, [])], true⟩ : Hub).loopSet = true) ∧
    ((0, [⟨some "person", 1, [], 1⟩, ⟨some "person", 1, [], 2⟩]) ∈
        (runHub ⟨1, [(0, [])], true⟩
          [HubOp.publish ⟨some "person", 1, [], 1⟩, HubOp.subscribe,
           HubOp.publish ⟨some "person", 1, [], 2⟩]).queues →
      [⟨some "person", 1, [], 1⟩, ⟨some "person", 1, [], 2⟩]
        = ([] : List Payload) ++ pubsOf
            [HubOp.publish ⟨some "person", 1, [], 1⟩, HubOp.subscribe,
             HubOp.publish ⟨some "person", 1, [], 2⟩]) ∧
    ((0, [⟨some "person", 1, [], 1⟩, ⟨some "person", 1, [], 2⟩]) ∈
        (runHub ⟨1, [(0, [])], true⟩
          [HubOp.publish ⟨some "person", 1, [], 1⟩, HubOp.subscribe,
           HubOp.publish ⟨some "person", 1, [], 2⟩]).queues) ∧
    ((1, [⟨some "person", 1, [], 2⟩]) ∈
        (runHub ⟨1, [(0, [])], true⟩
          [HubOp.publish ⟨some "person", 1, [], 1⟩, HubOp.subscribe,
           HubOp.publish ⟨some "person", 1, [], 2⟩]).queues) :=
  ⟨⟨⟨by simp, by intro q hq; simp at hq; simp [hq]⟩, rfl⟩,
   fun hmem =>
     (c4_broadcast_hub ⟨1, [(0, [])], true⟩
       ⟨by simp, by intro q hq; simp at hq; simp [hq]⟩ rfl).2.1
       [HubOp.publish ⟨some "person", 1, [], 1⟩, HubOp.subscribe,
        HubOp.publish ⟨some "person", 1, [], 2⟩]
       0 [] _ (by simp) hmem,
   by simp [runHub, applyHubOp, broadcast, register_queue, pubsOf],
   by simp [runHub, applyHubOp, broadcast, register_queue, pubsOf]⟩

/-- What one iteration of `_wait_for_yolo_health`'s polling loop
observes: `self.yolo_process.poll()` (`some code` once the child has
exited) and the health request's result (`none` when
`requests.get` raised, otherwise the HTTP status code). -/
structure PollStep where
  childExit : Option Int
  httpStatus : Option Nat
  deriving DecidableEq, Repr

/-- The exception raised by `_wait_for_yolo_health`: `RuntimeError` on
early child exit, `TimeoutError` when the deadline passes. -/
inductive HealthError where
  | runtimeError (msg : String)
  | timeoutError (msg : String)
  deriving DecidableEq, Repr

def healthTimeoutMsg (url : String) : String :=
  "Timed out waiting for YOLO health endpoint at " ++ url

/-- The `LOGGER.error` line emitted on early exit — the only place the
child's exit code appears. -/
def earlyExitLog (code : Int) : String :=
  "YOLO server exited early with code " ++ toString code

/-- `OrchestratorRuntime._wait_for_yolo_health`, with the loop's
`time.sleep(1)` making iteration `k` happen `k` seconds after start, so
the `while time.time() - start_time < timeout` guard allows iterations
`k < timeout`.  Returns the raised/ok outcome together with the log
lines of the terminating iteration.  Per iteration the code first
checks `poll()` (raising `RuntimeError` with a fixed message and
logging the exit code), then treats exactly status 200 as healthy, and
otherwise sleeps and retries. -/
def wait_for_yolo_health_aux (url : String) (steps : Nat → PollStep) :
    Nat → Nat → Except HealthError Unit × List String
  | 0, _ => (Except.error (HealthError.timeoutError (healthTimeoutMsg url)), [])
  | fuel + 1, k =>
    match (steps k).childExit with
    | some code =>
      (Except.error (HealthError.runtimeError
        "YOLO server process terminated unexpectedly"), [earlyExitLog code])
    | none =>
      if (steps k).httpStatus = some 200 then
        (Except.ok (), ["YOLO health endpoint reachable"])
      else wait_for_yolo_health_aux url steps fuel (k + 1)

def wait_for_yolo_health (url : String) (timeout : Nat)
    (steps : Nat → PollStep) : Except HealthError Unit × List String :=
  wait_for_yolo_health_aux url steps timeout 0

/-- A poll observation that keeps the loop going: child still running,
health request failed or returned a non-200 status. -/
def DeadStep (s : PollStep) : Prop :=
  s.childExit = none ∧ s.httpStatus ≠ some 200

lemma health_aux_step_dead (url : String) (steps : Nat → PollStep)
    (fuel k : Nat) (hd : DeadStep (steps k)) :
    wait_for_yolo_health_aux url steps (fuel + 1) k =
      wait_for_yolo_health_aux url steps fuel (k + 1) := by
  obtain ⟨hc, hs⟩ := hd
  simp [wait_for_yolo_health_aux, hc, hs]

lemma health_aux_timeout (url : String) (steps : Nat → PollStep) :
    ∀ fuel k, (∀ j, k ≤ j → j < k + fuel → DeadStep (steps j)) →
      wait_for_yolo_health_aux url steps fuel k =
        (Except.error (HealthError.timeoutError (healthTimeoutMsg url)), []) := by
  intro fuel
  induction fuel with
  | zero => intro k _; rfl
  | succ fuel ih =>
    intro k hdead
    rw [health_aux_step_dead url steps fuel k (hdead k (le_refl k) (by omega))]
    exact ih (k + 1) (fun j hj1 hj2 => hdead j (by omega) (by omega))

lemma health_aux_early_exit (url : String) (steps : Nat → PollStep) :
    ∀ fuel k j code, k ≤ j → j < k + fuel →
      (∀ i, k ≤ i → i < j → DeadStep (steps i)) →
      (steps j).childExit = some code →
      wait_for_yolo_health_aux url steps fuel k =
        (Except.error (HealthError.runtimeError
          "YOLO server process terminated unexpectedly"), [earlyExitLog code]) := by
  intro fuel
  induction fuel with
  | zero => intro k j code _ h2 _ _; omega
  | succ fuel ih =>
    intro k j code h1 h2 hdead hexit
    rcases Nat.eq_or_lt_of_le h1 with rfl | hkj
    · simp [wait_for_yolo_health_aux, hexit]
    · rw [health_aux_step_dead url steps fuel k (hdead k (le_refl k) hkj)]
      exact ih (k + 1) j code (by omega) (by omega)
        (fun i hi1 hi2 => hdead i (by omega) hi2) hexit

lemma health_aux_ok (url : String) (steps : Nat → PollStep) :
    ∀ fuel k j, k ≤ j → j < k + fuel →
      (∀ i, k ≤ i → i < j → DeadStep (steps i)) →
      (steps j).childExit = none → (steps j).httpStatus = some 200 →
      wait_for_yolo_health_aux url steps fuel k =
        (Except.ok (), ["YOLO health endpoint reachable"]) := by
  intro fuel
  induction fuel with
  | zero => intro k j _ h2 _ _ _; omega
  | succ fuel ih =>
    intro k j h1 h2 hdead hexit hok
    rcases Nat.eq_or_lt_of_le h1 with rfl | hkj
    · simp [wait_for_yolo_health_aux, hexit, hok]
    · rw [health_aux_step_dead url steps fuel k (hdead k (le_refl k) hkj)]
      exact ih (k + 1) j (by omega) (by omega)
        (fun i hi1 hi2 => hdead i (by omega) hi2) hexit hok

lemma health_aux_trichotomy (url : String) (steps : Nat → PollStep) :
    ∀ fuel k,
      (wait_for_yolo_health_aux url steps fuel k).1 = Except.ok () ∨
      (wait_for_yolo_health_aux url steps fuel k).1 =
        Except.error (HealthError.runtimeError
          "YOLO server process terminated unexpectedly") ∨
      (wait_for_yolo_health_aux url steps fuel k).1 =
        Except.error (HealthError.timeoutError (healthTimeoutMsg url)) := by
  intro fuel
  induction fuel with
  | zero => intro k; right; right; rfl
  | succ fuel ih =>
    intro k
    cases hc : (steps k).childExit with
    | some code =>
      right; left; simp [wait_for_yolo_health_aux, hc]
    | none =>
      by_cases hs : (steps k).httpStatus = some 200
      · left; simp [wait_for_yolo_health_aux, hc, hs]
      · rw [health_aux_step_dead url steps fuel k ⟨hc, hs⟩]
        exact ih (k + 1)

/-- A supervised child that has already exited with code `c` at every
poll. -/
def constExitSteps (c : Int) : Nat → PollStep :=
  fun _ => ⟨some c, none⟩

/-- C7 counterexample: the fatal error raised on early child exit does
NOT include the exit code — two runs whose children exited with
different codes (3 and 4) raise the identical
`RuntimeError("YOLO server process terminated unexpectedly")`; the exit
code appears only in the log line. -/
theorem c7_health_counterexample :
    (wait_for_yolo_health "http://127.0.0.1:8001/health" 45 (constExitSteps 3)).1
      = (wait_for_yolo_health "http://127.0.0.1:8001/health" 45
          (constExitSteps 4)).1 ∧
    (wait_for_yolo_health "http://127.0.0.1:8001/health" 45 (constExitSteps 3)).1
      = Except.error (HealthError.runtimeError
          "YOLO server process terminated unexpectedly") ∧
    (3 : Int) ≠ 4 :=
  ⟨rfl, rfl, by decide⟩

/-- C7 amended: the health wait polls once per second and ends in
exactly one of three ways — ok on the first status-200 response; a
fatal `RuntimeError` when the child is first observed exited, with the
exit code in the accompanying error-log line but not in the raised
error itself; or, when all `timeout` polls stay dead, a fatal
`TimeoutError` whose message names the polled URL. -/
theorem c7_health_amended (url : String) (timeout : Nat)
    (steps : Nat → PollStep) :
    ((wait_for_yolo_health url timeout steps).1 = Except.ok () ∨
     (wait_for_yolo_health url timeout steps).1 =
       Except.error (HealthError.runtimeError
         "YOLO server process terminated unexpectedly") ∨
     (wait_for_yolo_health url timeout steps).1 =
       Except.error (HealthError.timeoutError (healthTimeoutMsg url))) ∧
    healthTimeoutMsg url =
      "Timed out waiting for YOLO health endpoint at " ++ url ∧
    ((∀ j, j < timeout → DeadStep (steps j)) →
      wait_for_yolo_health url timeout steps =
        (Except.error (HealthError.timeoutError (healthTimeoutMsg url)), [])) ∧
    (∀ j code, j < timeout → (∀ i, i < j → DeadStep (steps i)) →
      (steps j).childExit = some code →
      wait_for_yolo_health url timeout steps =
        (Except.error (HealthError.runtimeError
          "YOLO server process terminated unexpectedly"),
         ["YOLO server exited early with code " ++ toString code])) ∧
    (∀ j, j < timeout → (∀ i, i < j → DeadStep (steps i)) →
      (steps j).childExit = none → (steps j).httpStatus = some 200 →
      wait_for_yolo_health url timeout steps =
        (Except.ok (), ["YOLO health endpoint reachable"])) := by
  refine ⟨health_aux_trichotomy url steps timeout 0, rfl, ?_, ?_, ?_⟩
  · intro hdead
    exact health_aux_timeout url steps timeout 0
      (fun j _ hj => hdead j (by omega))
  · intro j code hj hdead hexit
    exact health_aux_early_exit url steps timeout 0 j code (Nat.zero_le j)
      (by omega) (fun i _ hi => hdead i hi) hexit
  · intro j hj hdead hexit hok
    exact health_aux_ok url steps timeout 0 j (Nat.zero_le j) (by omega)
      (fun i _ hi => hdead i hi) hexit hok

/-- A health endpoint that fails twice and then returns 200. -/
def okAfterTwoSteps : Nat → PollStep :=
  fun k => if k < 2 then ⟨none, none⟩ else ⟨none, some 200⟩

/-- Witness for `c7_health_amended`: with a 45-second timeout and a
child that becomes healthy on the third poll, the wait returns ok. -/
theorem c7_health_amended_witness :
    (2 < 45 ∧ (∀ i, i < 2 → DeadStep (okAfterTwoSteps i)) ∧
     (okAfterTwoSteps 2).childExit = none ∧
     (okAfterTwoSteps 2).httpStatus = some 200) ∧
    wait_for_yolo_health "http://127.0.0.1:8001/health" 45 okAfterTwoSteps =
      (Except.ok (), ["YOLO health endpoint reachable"]) :=
  ⟨⟨by decide,
    by intro i hi; interval_cases i <;> exact ⟨rfl, by decide⟩,
    rfl, rfl⟩,
   (c7_health_amended "http://127.0.0.1:8001/health" 45 okAfterTwoSteps).2.2.2.2
     2 (by decide)
     (by intro i hi; interval_cases i <;> exact ⟨rfl, by decide⟩)
     rfl rfl⟩

/-- The data `zeroconf.get_service_info` returns for a browsed service
(the fields `discover_first` reads). -/
structure ServiceInfoData where
  port : Nat
  addresses : List String
  deriving DecidableEq, Repr

/-- One `ServiceStateChange.Added` callback firing: at `time`, for
service `name`, with `get_service_info` yielding `info` (`none` when
resolution failed). -/
structure AddedEvent where
  time : ℚ
  name : String
  info : Option ServiceInfoData
  deriving DecidableEq, Repr

/-- The metadata dict `discover_first` builds for the first resolved
service: `{"name": name, "port": str(port), "addresses": ",".join(...)}`. -/
structure FoundRecord where
  name : String
  port : String
  addresses : String
  deriving DecidableEq, Repr

/-- Observable outcome of one `discover_first` call: the returned
record (or none), the time at which `event.wait(timeout)` unblocked,
and whether `zeroconf.close()` ran before returning. -/
structure DiscoverResult where
  found : Option FoundRecord
  returnTime : ℚ
  closed : Bool
  deriving DecidableEq, Repr

/-- Scan the chronological `Added` events: the callback records the
first one (with `found is None` guarding re-entry) whose
`get_service_info` resolved, provided it fires before the
`event.wait(timeout)` deadline. -/
def discover_first_search : List AddedEvent → ℚ → Option (ℚ × FoundRecord)
  | [], _ => none
  | e :: rest, timeout =>
    if e.time ≤ timeout then
      match e.info with
      | some info =>
        some (e.time,
          ⟨e.name, toString info.port, String.intercalate "," info.addresses⟩)
      | none => discover_first_search rest timeout
    else discover_first_search rest timeout

/-- `mdns_discover.discover_first` as defined at lines 14–40 of
`src/orchestrator/mdns_discover.py` (the stray duplicated `def` header
at line 4 makes the shipped module unimportable; this models the
function the module defines below it): browse, block on
`event.wait(timeout)`, close the zeroconf handle, and return the first
resolved service's metadata or `None`. -/
def discover_first (events : List AddedEvent) (timeout : ℚ) : DiscoverResult :=
  match discover_first_search events timeout with
  | some (t, record) => ⟨some record, t, true⟩
  | none => ⟨none, timeout, true⟩

lemma discover_first_search_none (timeout : ℚ) :
    ∀ events : List AddedEvent, (∀ e ∈ events, e.time ≤ timeout → e.info = none) →
      discover_first_search events timeout = none := by
  intro events
  induction events with
  | nil => intro _; rfl
  | cons e rest ih =>
    intro hnone
    have hrest := ih (fun e' he' => hnone e' (List.mem_cons_of_mem e he'))
    by_cases ht : e.time ≤ timeout
    · have : e.info = none := hnone e (List.mem_cons_self e rest) ht
      simp [discover_first_search, ht, this, hrest]
    · simp [discover_first_search, ht, hrest]

lemma discover_first_search_found (timeout : ℚ) (e : AddedEvent)
    (info : ServiceInfoData) (hinfo : e.info = some info)
    (ht : e.time ≤ timeout) :
    ∀ pre post : List AddedEvent, (∀ e' ∈ pre, e'.info = none) →
      discover_first_search (pre ++ e :: post) timeout =
        some (e.time,
          ⟨e.name, toString info.port, String.intercalate "," info.addresses⟩) := by
  intro pre
  induction pre with
  | nil =>
    intro post _
    simp [discover_first_search, ht, hinfo]
  | cons e' rest ih =>
    intro post hnone
    have h' : e'.info = none := hnone e' (List.mem_cons_self e' rest)
    have := ih post (fun x hx => hnone x (List.mem_cons_of_mem e' hx))
    by_cases ht' : e'.time ≤ timeout <;>
      simp [discover_first_search, ht', h', this]

/-- C8 (on the modelled intended function): `discover_first` always
closes its zeroconf handle before returning; with no resolvable service
inside the window it returns `none` only at the full `timeout`, never
earlier; and when the first resolved service appears at `t ≤ timeout`
it returns that service's name, stringified port and comma-joined
addresses at time `t`. -/
theorem c8_discover_first_model (events : List AddedEvent) (timeout : ℚ) :
    (discover_first events timeout).closed = true ∧
    ((∀ e ∈ events, e.time ≤ timeout → e.info = none) →
      discover_first events timeout = ⟨none, timeout, true⟩) ∧
    (∀ (pre post : List AddedEvent) (e : AddedEvent) (info : ServiceInfoData),
      events = pre ++ e :: post → (∀ e' ∈ pre, e'.info = none) →
      e.info = some info → e.time ≤ timeout →
      discover_first events timeout =
        ⟨some ⟨e.name, toString info.port,
           String.intercalate "," info.addresses⟩, e.time, true⟩) := by
  refine ⟨?_, ?_, ?_⟩
  · unfold discover_first
    rcases hs : discover_first_search events timeout with - | ⟨t, record⟩ <;> simp
  · intro hnone
    unfold discover_first
    rw [discover_first_search_none timeout events hnone]
  · intro pre post e info hev hnone hinfo ht
    subst hev
    unfold discover_first
    rw [discover_first_search_found timeout e info hinfo ht pre post hnone]

/-- Witness for `c8_discover_first_model`: a first `Added` event whose
resolution failed, then a resolved service `B` on port 8000 at `10.0.0.5`
appearing at time 2 with a 3-second timeout. -/
theorem c8_discover_first_model_witness :
    ((⟨1, "A", none⟩ : AddedEvent).info = none ∧
     (⟨2, "B", some ⟨8000, ["10.0.0.5"]⟩⟩ : AddedEvent).info =
       some ⟨8000, ["10.0.0.5"]⟩ ∧
     (⟨2, "B", some ⟨8000, ["10.0.0.5"]⟩⟩ : AddedEvent).time ≤ (3 : ℚ)) ∧
    discover_first
        [⟨1, "A", none⟩, ⟨2, "B", some ⟨8000, ["10.0.0.5"]⟩⟩] 3 =
      ⟨some ⟨"B", toString (8000 : Nat), String.intercalate "," ["10.0.0.5"]⟩,
       2, true⟩ :=
  ⟨⟨rfl, rfl, by norm_num⟩,
   (c8_discover_first_model
       [⟨1, "A", none⟩, ⟨2, "B", some ⟨8000, ["10.0.0.5"]⟩⟩] 3).2.2
     [⟨1, "A", none⟩] [] ⟨2, "B", some ⟨8000, ["10.0.0.5"]⟩⟩
     ⟨8000, ["10.0.0.5"]⟩ rfl
     (by intro e' he'; simp at he'; subst he'; rfl)
     rfl (by norm_num)⟩

/-- One raw YOLO box as read in `_detection_loop`: resolved label,
confidence, bounding box. -/
structure RawDetection where
  label : String
  confidence : ℚ
  bbox : List ℚ
  deriving DecidableEq, Repr

/-- The payload dict `_detection_loop` builds for a kept box (its
`timestamp` is the loop's `now`). -/
def detectionPayload (now : ℚ) (d : RawDetection) : Payload :=
  ⟨some d.label, d.confidence, d.bbox, now⟩

/-- Python's `max(detections, key=lambda d: d["confidence"])`: fold
keeping the current best on ties, so the first maximal element wins. -/
def pickTop : Payload → List Payload → Payload
  | best, [] => best
  | best, d :: rest =>
    pickTop (if best.confidence < d.confidence then d else best) rest

/-- The per-frame tail of `_detection_loop` (after the frame/interval
bookkeeping): filter the boxes to `WATCH_CLASSES`, and if any survive,
take the highest-confidence one, store it via `update_detection` and
broadcast a single `{"type": "detection", "payload": top}` event;
otherwise leave the last-detection snapshot unchanged and broadcast
nothing.  Returns the new last-detection snapshot and the list of
broadcast events. -/
def detection_loop_step (watch : List String) (now : ℚ)
    (dets : List RawDetection) (last : Option Payload) :
    Option Payload × List Event :=
  match (dets.filter (fun d => d.label ∈ watch)).map (detectionPayload now) with
  | [] => (last, [])
  | p :: ps => (some (pickTop p ps), [⟨"detection", some (pickTop p ps)⟩])

lemma pickTop_mem : ∀ (ps : List Payload) (p : Payload),
    pickTop p ps ∈ p :: ps := by
  intro ps
  induction ps with
  | nil => intro p; simp [pickTop]
  | cons d rest ih =>
    intro p
    rw [pickTop]
    rcases List.mem_cons.mp (ih (if p.confidence < d.confidence then d else p))
      with h | h
    · rw [h]
      by_cases hc : p.confidence < d.confidence
      · rw [if_pos hc]; simp
      · rw [if_neg hc]; simp
    · exact List.mem_cons.mpr (Or.inr (List.mem_cons_of_mem d h))

lemma pickTop_le : ∀ (ps : List Payload) (p : Payload) (x : Payload),
    x ∈ p :: ps → x.confidence ≤ (pickTop p ps).confidence := by
  intro ps
  induction ps with
  | nil => intro p x hx; simp at hx; subst hx; exact le_refl _
  | cons d rest ih =>
    intro p x hx
    rw [pickTop]
    have hbest : p.confidence ≤
        (if p.confidence < d.confidence then d else p).confidence ∧
        d.confidence ≤
        (if p.confidence < d.confidence then d else p).confidence := by
      by_cases hc : p.confidence < d.confidence
      · rw [if_pos hc]; exact ⟨le_of_lt hc, le_refl _⟩
      · rw [if_neg hc]; exact ⟨le_refl _, le_of_not_lt hc⟩
    rcases List.mem_cons.mp hx with rfl | hx'
    · exact le_trans hbest.1 (ih _ _ (List.mem_cons_self _ _))
    · rcases List.mem_cons.mp hx' with rfl | hx''
      · exact le_trans hbest.2 (ih _ _ (List.mem_cons_self _ _))
      · exact ih _ x (List.mem_cons_of_mem _ hx'')

/-- C10: per processed frame, at most one event is broadcast; any
broadcast event carries the stored top payload, which comes from a
watch-class box of this frame and has maximal confidence among the
frame's watch-class boxes (so non-watch labels never reach the stream);
and a frame with no watch-class boxes broadcasts nothing and leaves the
last-detection snapshot unchanged. -/
theorem c10_detection_loop (watch : List String) (now : ℚ)
    (dets : List RawDetection) (last : Option Payload) :
    (detection_loop_step watch now dets last).2.length ≤ 1 ∧
    (∀ ev ∈ (detection_loop_step watch now dets last).2, ∃ p : Payload,
      ev = ⟨"detection", some p⟩ ∧
      (detection_loop_step watch now dets last).1 = some p ∧
      (∃ d ∈ dets, d.label ∈ watch ∧ p = detectionPayload now d) ∧
      (∀ d ∈ dets, d.label ∈ watch → d.confidence ≤ p.confidence)) ∧
    ((∀ d ∈ dets, d.label ∉ watch) →
      detection_loop_step watch now dets last = (last, [])) := by
  refine ⟨?_, ?_, ?_⟩
  · unfold detection_loop_step
    split <;> simp
  · intro ev hev
    unfold detection_loop_step at hev ⊢
    split at hev
    · simp at hev
    · rename_i p ps heq
      simp only [List.mem_singleton] at hev
      subst hev
      refine ⟨pickTop p ps, rfl, rfl, ?_, ?_⟩
      · have hmem : pickTop p ps ∈ p :: ps := pickTop_mem ps p
        rw [← heq] at hmem
        obtain ⟨d, hd, hdp⟩ := List.mem_map.mp hmem
        have hd' := List.mem_filter.mp hd
        exact ⟨d, hd'.1, by simpa using hd'.2, hdp.symm⟩
      · intro d hd hdw
        have hmem : detectionPayload now d ∈
            (dets.filter (fun d => d.label ∈ watch)).map (detectionPayload now) :=
          List.mem_map.mpr ⟨d, List.mem_filter.mpr ⟨hd, by simpa using hdw⟩, rfl⟩
        rw [heq] at hmem
        have := pickTop_le ps p (detectionPayload now d) hmem
        simpa [detectionPayload] using this
  · intro hnone
    have hfil : dets.filter (fun d => d.label ∈ watch) = [] :=
      List.filter_eq_nil_iff.mpr (fun d hd => by simpa using hnone d hd)
    unfold detection_loop_step
    rw [hfil]
    rfl

/-- Witness for `c10_detection_loop`: a frame whose only boxes are
non-watch (`bottle` against watch set `{person}`) broadcasts nothing
and keeps the previous snapshot. -/
theorem c10_detection_loop_witness :
    (∀ d ∈ [(⟨"bottle", 9/10, []⟩ : RawDetection)], d.label ∉ ["person"]) ∧
    detection_loop_step ["person"] 7 [⟨"bottle", 9/10, []⟩]
        (some ⟨some "person", 1/2, [], 3⟩) =
      (some ⟨some "person", 1/2, [], 3⟩, []) :=
  ⟨by intro d hd; simp at hd; subst hd; simp,
   (c10_detection_loop ["person"] 7 [⟨"bottle", 9/10, []⟩]
       (some ⟨some "person", 1/2, [], 3⟩)).2.2
     (by intro d hd; simp at hd; subst hd; simp)⟩

end TrainShunting
